import Mathlib

/-!
Verification of the URB landing-page repository (aonurakman/urb_web) against its
natural-language specification.  The animated-scene module `QuantumScene.tsx`,
the chart module `Diagrams.tsx` and the page `App.tsx` are embedded shallowly:
numeric values are rationals (the source uses IEEE doubles, but every constant
appearing here is exactly representable and every operation used is exact),
per-frame callbacks become pure functions of the clock, and React component
trees become plain data.  Components that the specification describes but whose
source is not present under src/ (the procedural graph generator and the beam
effect) are modelled from the specification text; those definitions say so in
their doc comments.
-/

namespace UrbWeb

/-- 3D vector with rational coordinates, modelling `THREE.Vector3`. -/
structure Vec3 where
  x : ℚ
  y : ℚ
  z : ℚ
deriving DecidableEq, Repr

/-- The zero vector, used as an out-of-range default for list indexing. -/
def vzero : Vec3 := ⟨0, 0, 0⟩

/-- Componentwise vector addition (`Vector3.add`). -/
def vadd (a b : Vec3) : Vec3 := ⟨a.x + b.x, a.y + b.y, a.z + b.z⟩

/-- Componentwise vector subtraction (`Vector3.sub`). -/
def vsub (a b : Vec3) : Vec3 := ⟨a.x - b.x, a.y - b.y, a.z - b.z⟩

/-- Scalar multiple of a vector (`Vector3.multiplyScalar`). -/
def vsmul (c : ℚ) (a : Vec3) : Vec3 := ⟨c * a.x, c * a.y, c * a.z⟩

/-- Cross product with the vertical axis: `d × (0,1,0) = (-d.z, 0, d.x)`.
This is the direction a lateral lane offset would use (spec §4.3); its
y-component is 0 for every `d`. -/
def laneCross (d : Vec3) : Vec3 := ⟨-d.z, 0, d.x⟩

/-- Linear interpolation between two points: `(1-t)·a + t·b`. -/
def lerp3 (a b : Vec3) (t : ℚ) : Vec3 :=
  ⟨(1 - t) * a.x + t * b.x, (1 - t) * a.y + t * b.y, (1 - t) * a.z + t * b.z⟩

/-- JavaScript remainder `a % b`: truncated division, result carries the sign
of the dividend.  For the non-negative operands used by the scene this is the
ordinary floor-remainder. -/
def jsMod (a b : ℚ) : ℚ :=
  if 0 ≤ a / b then a - b * (⌊a / b⌋ : ℚ) else a - b * (⌈a / b⌉ : ℚ)

/-- Per-frame progress computed in `RoutingVehicle` (QuantumScene.tsx lines
86–89): `totalTime = 8`, `t = (state.clock.getElapsedTime() + delay) % totalTime`,
`progress = t / totalTime`. -/
def vehicleProgress (clock delay : ℚ) : ℚ := jsMod (clock + delay) 8 / 8

/-- The `pathChoice` prop of `RoutingVehicle`: `'left' | 'right'`. -/
inductive PathChoice where
  | left
  | right
deriving DecidableEq, Repr

/-- The `type` prop of `RoutingVehicle`: `'human' | 'cav'`. -/
inductive VType where
  | human
  | cav
deriving DecidableEq, Repr

/-- The five control points of the `CatmullRomCurve3` built in `RoutingVehicle`
(QuantumScene.tsx lines 58–81): start `(0,0,10)`, `(0,0,6)`, junction `(0,0,2)`,
then control `(∓3,0,-2)` and end `(∓4,0,-10)` depending on `pathChoice`. -/
def vehiclePathPoints : PathChoice → List Vec3
  | .left => [⟨0, 0, 10⟩, ⟨0, 0, 6⟩, ⟨0, 0, 2⟩, ⟨-3, 0, -2⟩, ⟨-4, 0, -10⟩]
  | .right => [⟨0, 0, 10⟩, ⟨0, 0, 6⟩, ⟨0, 0, 2⟩, ⟨3, 0, -2⟩, ⟨4, 0, -10⟩]

/-- One coordinate of a nonuniform Catmull-Rom segment, exactly the `CubicPoly`
computation of three.js `Interpolations.js` (`initNonuniformCatmullRom` followed
by `calc`): tangents `t1`, `t2` from the four control values and the knot
parameter deltas `dt0 dt1 dt2`, then the cubic `c0 + c1·w + c2·w² + c3·w³`. -/
def crCubic (x0 x1 x2 x3 dt0 dt1 dt2 w : ℚ) : ℚ :=
  let t1 := ((x1 - x0) / dt0 - (x2 - x0) / (dt0 + dt1) + (x2 - x1) / dt1) * dt1
  let t2 := ((x2 - x1) / dt1 - (x3 - x1) / (dt1 + dt2) + (x3 - x2) / dt2) * dt1
  let c0 := x1
  let c1 := t1
  let c2 := -3 * x1 + 3 * x2 - 2 * t1 - t2
  let c3 := 2 * x1 - 2 * x2 + t1 + t2
  c0 + c1 * w + c2 * w ^ 2 + c3 * w ^ 3

/-- Second control point of segment `ip` (`points[intPoint]` in
`CatmullRomCurve3.getPoint`). -/
def ctrl1 (pts : List Vec3) (ip : ℕ) : Vec3 := pts.getD ip vzero

/-- Third control point of segment `ip` (`points[intPoint + 1]`). -/
def ctrl2 (pts : List Vec3) (ip : ℕ) : Vec3 := pts.getD (ip + 1) vzero

/-- First control point of segment `ip`: `points[intPoint - 1]`, or the phantom
extrapolation `2·points[0] - points[1]` at the open start of the curve. -/
def ctrl0 (pts : List Vec3) (ip : ℕ) : Vec3 :=
  if ip = 0 then vsub (vsmul 2 (ctrl1 pts ip)) (ctrl2 pts ip)
  else pts.getD (ip - 1) vzero

/-- Fourth control point of segment `ip`: `points[intPoint + 2]`, or the phantom
extrapolation `2·points[l-1] - points[l-2]` at the open end of the curve. -/
def ctrl3 (pts : List Vec3) (ip : ℕ) : Vec3 :=
  if ip + 2 < pts.length then pts.getD (ip + 2) vzero
  else vsub (vsmul 2 (ctrl2 pts ip)) (ctrl1 pts ip)

/-- `CatmullRomCurve3.getPoint` at curve parameter `t`, for an open
(non-closed) curve: segment index `⌊(l-1)·t⌋` and local weight, with the
boundary fix-up at `t = 1`.  The centripetal knot deltas
`dt_i = distance(p_i, p_{i+1})^(1/2)` of the source are irrational, so they are
supplied here as an abstract parameter `dts` (one triple per segment); every
theorem below holds for all values of `dts`, in particular the true ones.  The
arc-length reparameterization of `getPointAt` maps progress 0 to `t = 0` and is
a monotone onto map of `[0,1]`, so quantifying over `t` covers every frame. -/
def curvePointAt (pts : List Vec3) (dts : ℕ → ℚ × ℚ × ℚ) (t : ℚ) : Vec3 :=
  let n := pts.length
  let p : ℚ := ((n : ℚ) - 1) * t
  let ipz : ℤ := ⌊p⌋
  let wraw : ℚ := p - (ipz : ℚ)
  let atEnd : Bool := decide (wraw = 0) && decide (ipz = (n : ℤ) - 1)
  let ip : ℕ := if atEnd then n - 2 else ipz.toNat
  let w : ℚ := if atEnd then 1 else wraw
  let q0 := ctrl0 pts ip
  let q1 := ctrl1 pts ip
  let q2 := ctrl2 pts ip
  let q3 := ctrl3 pts ip
  let d := dts ip
  ⟨crCubic q0.x q1.x q2.x q3.x d.1 d.2.1 d.2.2 w,
   crCubic q0.y q1.y q2.y q3.y d.1 d.2.1 d.2.2 w,
   crCubic q0.z q1.z q2.z q3.z d.1 d.2.1 d.2.2 w⟩

/-- The rendered position of a `RoutingVehicle` (QuantumScene.tsx lines 92–100):
`position.copy(path.getPointAt(progress))` followed by the override
`position.y = -0.4`. -/
def renderedPosition (pc : PathChoice) (dts : ℕ → ℚ × ℚ × ℚ) (t : ℚ) : Vec3 :=
  let q := curvePointAt (vehiclePathPoints pc) dts t
  ⟨q.x, -(2 / 5), q.z⟩

/-- The property asserted by the specification for the rendered position
(spec §8): it lies on the straight segment between two of the path's nodes,
up to a lateral lane offset, i.e. it equals a convex combination of two node
positions plus a multiple of `cross(direction, up)`.  This predicate states the
claim; it is not part of the source. -/
def onClaimedLane (nodes : List Vec3) (q : Vec3) : Prop :=
  ∃ a, a ∈ nodes ∧ ∃ b, b ∈ nodes ∧ ∃ t w : ℚ, ∃ dir : Vec3,
    0 ≤ t ∧ t ≤ 1 ∧ q = vadd (lerp3 a b t) (vsmul w (laneCross dir))

/-- A straight line segment, as used by the `CityGrid` `Line` elements. -/
structure Seg where
  a : Vec3
  b : Vec3
deriving DecidableEq, Repr

/-- The grid segments built by `CityGrid` (QuantumScene.tsx lines 134–162):
for each `i = -15 .. 15` a horizontal line `[(-15,0,i),(15,0,i)]` and a
vertical line `[(i,0,-15),(i,0,15)]`, in loop order. -/
def cityGridLines : List Seg :=
  (List.range 31).flatMap (fun k =>
    let i : ℚ := (k : ℚ) - 15
    [⟨⟨-15, 0, i⟩, ⟨15, 0, i⟩⟩, ⟨⟨i, 0, -15⟩, ⟨i, 0, 15⟩⟩])

/-- Configuration of one `RoutingVehicle` element as instantiated by a scene. -/
structure VehicleCfg where
  vtype : VType
  delay : ℚ
  pathChoice : PathChoice
deriving DecidableEq, Repr

/-- The fixed vehicle pool of `TrafficHeroScene` (QuantumScene.tsx lines
211–228): 8 human vehicles with delays `i * 1.2` on the left path, then 6 cav
vehicles with delays `i * 1.5 + 0.5` on the right path. -/
def heroVehicles : List VehicleCfg :=
  (List.range 8).map (fun i => ⟨.human, (i : ℚ) * (6 / 5), .left⟩) ++
    (List.range 6).map (fun i => ⟨.cav, (i : ℚ) * (3 / 2) + 1 / 2, .right⟩)

/-- One rendered frame of the hero scene: every pooled vehicle's `useFrame`
callback runs once, computing its progress from the shared clock.  The pool
itself is the fixed list `heroVehicles`; a frame only maps over it. -/
def heroFrame (clock : ℚ) : List ℚ :=
  heroVehicles.map (fun v => vehicleProgress clock v.delay)

/-- The static data of one scene entry point: camera position and field of
view from the `Canvas` element, the `RoutingVehicle` pool, and the number of
plain decorative meshes. -/
structure SceneSpec where
  cameraPos : Vec3
  fov : ℚ
  vehicles : List VehicleCfg
  decorMeshCount : ℕ
deriving Repr

/-- `TrafficHeroScene` (QuantumScene.tsx lines 198–239): camera `[0,8,12]`,
fov 45, the 14-vehicle pool, and two floating decor boxes. -/
def trafficHeroScene : SceneSpec := ⟨⟨0, 8, 12⟩, 45, heroVehicles, 2⟩

/-- `SimulationScene` (QuantumScene.tsx lines 241–274): camera `[0,8,0]`,
fov 50, no `RoutingVehicle`s, and 20 randomly placed box meshes. -/
def simulationScene : SceneSpec := ⟨⟨0, 8, 0⟩, 50, [], 20⟩

/-- One exported binding of the module `QuantumScene.tsx`: its export name,
the number of props the component accepts, and its scene data. -/
structure SceneExport where
  name : String
  propsCount : ℕ
  scene : SceneSpec

/-- The complete export surface of `QuantumScene.tsx`: exactly the two scene
components, both `React.FC` with no props (`RoutingVehicle`, `CityGrid` and
`JunctionRoad` are module-private). -/
def quantumSceneExports : List SceneExport :=
  [⟨"TrafficHeroScene", 0, trafficHeroScene⟩, ⟨"SimulationScene", 0, simulationScene⟩]

/-- Everything `RoutingVehicle` produces, as a function of its three props
(QuantumScene.tsx lines 53–130): the body color, the path points, the per-frame
progress as a function of the clock, the rendered position as a function of the
(abstracted) knot deltas and curve parameter, the body box dimensions and the
head/tail light colors. -/
structure VehicleOutput where
  color : String
  pathPts : List Vec3
  progressAt : ℚ → ℚ
  renderAt : (ℕ → ℚ × ℚ × ℚ) → ℚ → Vec3
  bodyArgs : Vec3
  lightColors : List String

/-- The `RoutingVehicle` component (QuantumScene.tsx lines 53–130).  The `type`
prop is consulted exactly once, for the body color. -/
def routingVehicle (vt : VType) (delay : ℚ) (pc : PathChoice) : VehicleOutput where
  color := match vt with
    | .human => "#ef4444"
    | .cav => "#3B82F6"
  pathPts := vehiclePathPoints pc
  progressAt := fun clock => vehicleProgress clock delay
  renderAt := renderedPosition pc
  bodyArgs := ⟨7 / 50, 3 / 25, 2 / 5⟩
  lightColors := ["#FFFAA0", "#FFFAA0", "#FF0000", "#FF0000"]

/-- `BenchmarkResultsDiagram` data, scenario `st_arnoult` (Diagrams.tsx lines
66–76), the seven displayed values in render order: human, aon, random, qmix,
ippo, iql, mappo. -/
def st_arnoult : List ℚ :=
  [315 / 100, 315 / 100, 338 / 100, 324 / 100, 328 / 100, 336 / 100, 335 / 100]

/-- Scenario `provins` (Diagrams.tsx lines 77–87). -/
def provins : List ℚ :=
  [280 / 100, 281 / 100, 293 / 100, 296 / 100, 290 / 100, 291 / 100, 293 / 100]

/-- Scenario `ingolstadt` (Diagrams.tsx lines 88–98). -/
def ingolstadt : List ℚ :=
  [421 / 100, 429 / 100, 445 / 100, 450 / 100, 441 / 100, 446 / 100, 445 / 100]

/-- Scenario `st_arnoult` of the second copy of `BenchmarkResultsDiagram`
(appended document of QuantumScene.tsx, lines 410–419). -/
def st_arnoult2 : List ℚ :=
  [315 / 100, 301 / 100, 358 / 100, 321 / 100, 333 / 100, 353 / 100, 351 / 100]

/-- Scenario `provins` of the second copy (lines 421–430). -/
def provins2 : List ℚ :=
  [280 / 100, 276 / 100, 304 / 100, 314 / 100, 298 / 100, 301 / 100, 305 / 100]

/-- Scenario `ingolstadt` of the second copy (lines 432–441). -/
def ingolstadt2 : List ℚ :=
  [421 / 100, 437 / 100, 481 / 100, 487 / 100, 471 / 100, 481 / 100, 482 / 100]

/-- All six scenario tables that feed the bar chart, across both copies of the
component. -/
def benchmarkTables : List (List ℚ) :=
  [st_arnoult, provins, ingolstadt, st_arnoult2, provins2, ingolstadt2]

/-- `Math.max(...allValues)`: maximum of a list, folding from the first
element. -/
def maxVal : List ℚ → ℚ
  | [] => 0
  | h :: t => t.foldl max h

/-- The rendered width percentage of one bar (Diagrams.tsx lines 111 and 116):
`maxVal = Math.max(...allValues) * 1.05` and
`percentage = value / maxVal * 100`. -/
def barPercentage (vals : List ℚ) (v : ℚ) : ℚ :=
  v / (maxVal vals * (105 / 100)) * 100

/-- A 2D node position of the procedural road graph (spec §3, Node).  The
coordinate type is kept abstract (any linear ordered commutative ring): the
generator uses only ring operations and order comparisons, so the general
theorems are stated over ℚ while concrete evaluations use ℤ, both instances of
the same definitions. -/
structure P2 (α : Type) where
  x : α
  y : α
deriving DecidableEq, Repr

variable {α : Type} [LinearOrderedCommRing α]

/-- Squared Euclidean distance between two node positions.  All distance
comparisons of the generator are on squares (min separation 4² = 16, max
connection 14² = 196), which avoids square roots and is exact. -/
def distSq (a b : P2 α) : α :=
  (a.x - b.x) * (a.x - b.x) + (a.y - b.y) * (a.y - b.y)

/-- The all-zero position, used as an out-of-range default for indexing. -/
def pzero : P2 α := ⟨0, 0⟩

/-- Modelled from the spec: one iteration of Graph Generator node placement
(spec §4.1 step 1), whose source is not under src/ — a sampled candidate is
accepted only if it is farther than the minimum separation (4 units) from
every previously accepted node, otherwise it is dropped without retry. -/
def placeStep (acc : List (P2 α)) (c : P2 α) : List (P2 α) :=
  if acc.all (fun p => decide (16 < distSq c p)) then acc ++ [c] else acc

/-- Modelled from the spec: Graph Generator node placement (spec §4.1 step 1).
The list `cands` abstracts the stream of grid-snapped, jittered random sample
positions inside the spatial range, one per iteration of the requested node
count; because rejected candidates are not retried, the result can be shorter
than requested. -/
def placeNodes (cands : List (P2 α)) : List (P2 α) :=
  cands.foldl placeStep []

/-- Ranking order used to sort candidate neighbors: ascending squared
distance, ties broken by node index (the spec fixes no tie order; index order
makes the model deterministic). -/
def keyLe (a b : α × ℕ) : Bool :=
  if a.1 < b.1 then true else if b.1 < a.1 then false else decide (a.2 ≤ b.2)

/-- Insertion step of the stable insertion sort used to rank neighbors. -/
def insertKey (x : α × ℕ) : List (α × ℕ) → List (α × ℕ)
  | [] => [x]
  | y :: t => if keyLe x y then x :: y :: t else y :: insertKey x t

/-- Stable insertion sort by `keyLe`, modelling the ranking of all other nodes
by Euclidean distance (spec §4.1 step 2). -/
def isort : List (α × ℕ) → List (α × ℕ)
  | [] => []
  | x :: t => insertKey x (isort t)

/-- Modelled from the spec: the neighbors node `i` attempts to connect to
(spec §4.1 step 2) — all other nodes ranked by distance, the nearest K = 3
taken, and of those only the ones closer than the maximum connection distance
(14 units) kept. -/
def neighborCands (nodes : List (P2 α)) (i : ℕ) : List ℕ :=
  ((((isort (((List.range nodes.length).filter (fun j => j ≠ i)).map
      (fun j => (distSq (nodes.getD i pzero) (nodes.getD j pzero), j)))).map
      (fun q => q.2)).take 3).filter
      (fun j => decide (distSq (nodes.getD i pzero) (nodes.getD j pzero) < 196)))

/-- In-place update of one entry of an adjacency table (out-of-range indices
leave the table unchanged). -/
def modifyAt (l : List (List ℕ)) (i : ℕ) (f : List ℕ → List ℕ) : List (List ℕ) :=
  match l, i with
  | [], _ => []
  | a :: t, 0 => f a :: t
  | a :: t, n + 1 => a :: modifyAt t n f

/-- Record the undirected edge `i–j`: append `j` to `i`'s adjacency list and
`i` to `j`'s (spec §3: the adjacency relation is symmetric). -/
def addEdge (adj : List (List ℕ)) (i j : ℕ) : List (List ℕ) :=
  modifyAt (modifyAt adj i (fun l => l ++ [j])) j (fun l => l ++ [i])

/-- Modelled from the spec: the Graph Generator adjacency construction
(spec §4.1 step 2) — for each node in index order, add an edge to each of its
candidate neighbors unless the pair is already connected, the already-connected
check inspecting only the first node's adjacency list (the asymmetric check
the spec flags in §9). -/
def buildAdj (nodes : List (P2 α)) : List (List ℕ) :=
  (List.range nodes.length).foldl
    (fun adj i =>
      (neighborCands nodes i).foldl
        (fun adj j => if j ∈ adj.getD i [] then adj else addEdge adj i j) adj)
    (List.replicate nodes.length [])

/-- All recorded adjacencies lie within the squared connection threshold
14² = 196. -/
def EdgeOk (nodes : List (P2 α)) (adj : List (List ℕ)) : Prop :=
  ∀ i j : ℕ, j ∈ adj.getD i [] →
    distSq (nodes.getD i pzero) (nodes.getD j pzero) < 196

/-- A concrete candidate stream for the requested node count 80: five
well-separated positions inside the spatial range 25 — one central node with
four nodes 9 units away from it in the four axis directions — followed by 75
samples that all fall within the minimum separation of the first node and are
rejected.  Integer coordinates are used so that the run evaluates inside the
kernel; they are legitimate sample values. -/
def cand80 : List (P2 ℤ) :=
  [⟨0, 0⟩, ⟨9, 0⟩, ⟨-9, 0⟩, ⟨0, 9⟩, ⟨0, -9⟩] ++ List.replicate 75 ⟨0, 0⟩

/-- Modelled from the spec: beam eligibility (spec §4.4 step b) — a candidate
agent must be of the eligible category and have no active beam.  A beam is a
pair of target agent index and expiry time (spec §3, Beam). -/
def beamEligible (cats : ℕ → Bool) (beams : List (ℕ × ℚ)) (a : ℕ) : Bool :=
  cats a && beams.all (fun b => b.1 != a)

/-- Modelled from the spec: the purge pass (spec §4.4 step a) — beams whose
expiry has passed are removed. -/
def beamPurge (now : ℚ) (beams : List (ℕ × ℚ)) : List (ℕ × ℚ) :=
  beams.filter (fun b => decide (now ≤ b.2))

/-- Modelled from the spec: the acquisition pass (spec §4.4 step b) — only
when under the maximum concurrent count, the fixed number of random draws
(abstracted as the list `draws`) is scanned for the first eligible agent, and
on success a single beam is registered with expiry `now + dur`, `dur` being the
duration sampled from a bounded random range. -/
def beamTryAdd (maxBeams : ℕ) (now dur : ℚ) (cats : ℕ → Bool) (draws : List ℕ)
    (beams : List (ℕ × ℚ)) : List (ℕ × ℚ) :=
  if beams.length < maxBeams then
    match draws.find? (beamEligible cats beams) with
    | some a => beams ++ [(a, now + dur)]
    | none => beams
  else beams

/-- Modelled from the spec: one frame of the Beam Effect (spec §4.4), whose
source is not under src/ — purge expired beams, then attempt at most one
acquisition. -/
def beamStep (maxBeams : ℕ) (now dur : ℚ) (cats : ℕ → Bool) (draws : List ℕ)
    (beams : List (ℕ × ℚ)) : List (ℕ × ℚ) :=
  beamTryAdd maxBeams now dur cats draws (beamPurge now beams)

end UrbWeb

namespace UrbWeb

/-! ### Theorems -/

/-- List indexing with a default hits a member of the list or the default. -/
theorem getD_mem_or {α : Type} : ∀ (l : List α) (i : ℕ) (d : α),
    l.getD i d ∈ l ∨ l.getD i d = d
  | [], _, _ => Or.inr rfl
  | a :: _, 0, _ => Or.inl (List.mem_cons_self _ _)
  | _ :: t, n + 1, d => by
    rcases getD_mem_or t n d with h | h
    · exact Or.inl (List.mem_cons_of_mem _ h)
    · exact Or.inr h

/-- Claim C9: re-deriving the static road/grid geometry from unchanged input is
idempotent and pure — for a fixed path choice the recomputed path points are
identical, and the recomputed city grid is the identical list of 62 segments;
both are closed functions of their inputs with no hidden state (the `useMemo`
bodies read only their dependency arrays). -/
theorem staticGeometry_pure :
    (∀ pc : PathChoice, vehiclePathPoints pc = vehiclePathPoints pc) ∧
    cityGridLines = cityGridLines ∧
    cityGridLines.length = 62 ∧
    (∀ pc : PathChoice, (vehiclePathPoints pc).length = 5) := by
  refine ⟨fun _ => rfl, rfl, by decide, fun pc => by cases pc <;> rfl⟩

/-- Claim C5: the hero scene's vehicle pool is fixed at creation — exactly 8
human vehicles and 6 cav vehicles, 14 in total — and every rendered frame
updates exactly those 14 vehicles (the frame pass is a map over the fixed
pool, so none are added or removed). -/
theorem heroScene_pool_fixed :
    (heroVehicles.filter (fun v => decide (v.vtype = VType.human))).length = 8 ∧
    (heroVehicles.filter (fun v => decide (v.vtype = VType.cav))).length = 6 ∧
    heroVehicles.length = 14 ∧
    ∀ clock : ℚ, (heroFrame clock).length = 14 := by
  refine ⟨by decide, by decide, by decide, fun clock => ?_⟩
  simp [heroFrame, heroVehicles]

/-- Claim C7: the scene module exposes exactly two named scene-producing entry
points — the hero variant and the background simulation variant — and each
accepts zero props, all configuration being implicit. -/
theorem quantumScene_export_surface :
    quantumSceneExports.map (fun e => e.name) = ["TrafficHeroScene", "SimulationScene"] ∧
    quantumSceneExports.length = 2 ∧
    ∀ e ∈ quantumSceneExports, e.propsCount = 0 := by
  refine ⟨rfl, rfl, ?_⟩
  intro e he
  simp only [quantumSceneExports, List.mem_cons, List.mem_singleton] at he
  rcases he with rfl | rfl | h
  · rfl
  · rfl
  · cases h

/-- Claim C8: the vehicle category tag affects color only — with equal delay
and path choice, a human vehicle and a cav vehicle produce the same path, the
same per-frame progress function, the same rendered-position function, the same
body geometry and light colors, and differ exactly in the body color. -/
theorem vehicleType_color_only (delay : ℚ) (pc : PathChoice) :
    (routingVehicle .human delay pc).pathPts = (routingVehicle .cav delay pc).pathPts ∧
    (routingVehicle .human delay pc).progressAt = (routingVehicle .cav delay pc).progressAt ∧
    (routingVehicle .human delay pc).renderAt = (routingVehicle .cav delay pc).renderAt ∧
    (routingVehicle .human delay pc).bodyArgs = (routingVehicle .cav delay pc).bodyArgs ∧
    (routingVehicle .human delay pc).lightColors = (routingVehicle .cav delay pc).lightColors ∧
    (routingVehicle .human delay pc).color ≠ (routingVehicle .cav delay pc).color := by
  refine ⟨rfl, rfl, rfl, rfl, rfl, ?_⟩
  show ("#ef4444" : String) ≠ "#3B82F6"
  decide

/-- All five path control points lie in the ground plane y = 0. -/
theorem vehiclePathPoints_y_zero (pc : PathChoice) : ∀ p ∈ vehiclePathPoints pc, p.y = 0 := by
  cases pc <;>
    · intro p hp
      simp only [vehiclePathPoints, List.mem_cons, List.not_mem_nil, or_false] at hp
      rcases hp with rfl | rfl | rfl | rfl | rfl <;> rfl

/-- Indexing a list of plane points (with the zero default) stays in the
plane. -/
theorem getD_y_zero (l : List Vec3) (hy : ∀ p ∈ l, p.y = 0) (i : ℕ) :
    (l.getD i vzero).y = 0 := by
  rcases getD_mem_or l i vzero with h | h
  · exact hy _ h
  · rw [h]; rfl

/-- `ctrl1` of a plane-point list is in the plane. -/
theorem ctrl1_y_zero (l : List Vec3) (hy : ∀ p ∈ l, p.y = 0) (ip : ℕ) :
    (ctrl1 l ip).y = 0 := getD_y_zero l hy ip

/-- `ctrl2` of a plane-point list is in the plane. -/
theorem ctrl2_y_zero (l : List Vec3) (hy : ∀ p ∈ l, p.y = 0) (ip : ℕ) :
    (ctrl2 l ip).y = 0 := getD_y_zero l hy (ip + 1)

/-- `ctrl0` of a plane-point list is in the plane (the phantom start point is
an affine combination of plane points). -/
theorem ctrl0_y_zero (l : List Vec3) (hy : ∀ p ∈ l, p.y = 0) (ip : ℕ) :
    (ctrl0 l ip).y = 0 := by
  unfold ctrl0
  split
  · show (vsub (vsmul 2 (ctrl1 l ip)) (ctrl2 l ip)).y = 0
    simp [vsub, vsmul, ctrl1_y_zero l hy ip, ctrl2_y_zero l hy ip]
  · exact getD_y_zero l hy _

/-- `ctrl3` of a plane-point list is in the plane (the phantom end point is an
affine combination of plane points). -/
theorem ctrl3_y_zero (l : List Vec3) (hy : ∀ p ∈ l, p.y = 0) (ip : ℕ) :
    (ctrl3 l ip).y = 0 := by
  unfold ctrl3
  split
  · exact getD_y_zero l hy _
  · show (vsub (vsmul 2 (ctrl2 l ip)) (ctrl1 l ip)).y = 0
    simp [vsub, vsmul, ctrl1_y_zero l hy ip, ctrl2_y_zero l hy ip]

/-- The Catmull-Rom cubic of four zero control values is zero, for every knot
parameterization and every weight. -/
theorem crCubic_zero (dt0 dt1 dt2 w : ℚ) : crCubic 0 0 0 0 dt0 dt1 dt2 w = 0 := by
  simp [crCubic]

/-- A Catmull-Rom curve through plane points stays in the plane, for every
knot parameterization and every curve parameter. -/
theorem curvePointAt_y_zero (pts : List Vec3) (hy : ∀ p ∈ pts, p.y = 0)
    (dts : ℕ → ℚ × ℚ × ℚ) (t : ℚ) : (curvePointAt pts dts t).y = 0 := by
  simp only [curvePointAt]
  rw [ctrl0_y_zero pts hy, ctrl1_y_zero pts hy, ctrl2_y_zero pts hy, ctrl3_y_zero pts hy]
  exact crCubic_zero _ _ _ _

/-- Counterexample to claim C4 at the concrete frame clock 0, delay 0 (so
progress 0, which the arc-length reparameterization maps to curve parameter
0): the rendered position of a left-path vehicle is `(0, -0.4, 10)`, whose y
coordinate is -0.4, while a convex combination of two path nodes offset
laterally by any multiple of `cross(direction, up)` always has y coordinate 0.
The rendered position therefore does not lie on any node-to-node segment with
a lane offset.  (The knot-delta argument does not affect the curve value at
parameter 0 and is instantiated with constant `(1,1,1)`.) -/
theorem renderedPosition_offplane_counterexample :
    renderedPosition .left (fun _ => (1, 1, 1)) 0 = ⟨0, -(2 / 5), 10⟩ ∧
      ¬ onClaimedLane (vehiclePathPoints .left)
          (renderedPosition .left (fun _ => (1, 1, 1)) 0) := by
  constructor
  · simp only [renderedPosition, curvePointAt, vehiclePathPoints]
    norm_num [ctrl0, ctrl1, ctrl2, ctrl3, vsub, vsmul, vzero, crCubic]
  · rintro ⟨a, ha, b, hb, t, w, dir, ht0, ht1, heq⟩
    have hay : a.y = 0 := vehiclePathPoints_y_zero .left a ha
    have hby : b.y = 0 := vehiclePathPoints_y_zero .left b hb
    have hy : (renderedPosition .left (fun _ => (1, 1, 1)) 0).y = -(2 / 5) := rfl
    rw [heq] at hy
    simp only [vadd, lerp3, vsmul, laneCross, hay, hby] at hy
    norm_num at hy

/-- Claim C4 as amended: on every frame the rendered position lies in the
horizontal plane y = -0.4, not on a lane-offset segment between two nodes: the
code copies the Catmull-Rom curve point — the curve stays in the ground plane
y = 0 spanned by the five path points — and then overrides the y coordinate to
-0.4; the x and z coordinates follow the spline, and no lane offset is
applied. -/
theorem renderedPosition_plane (pc : PathChoice) (dts : ℕ → ℚ × ℚ × ℚ) (t : ℚ) :
    (renderedPosition pc dts t).y = -(2 / 5) ∧
      (curvePointAt (vehiclePathPoints pc) dts t).y = 0 ∧
      (renderedPosition pc dts t).x = (curvePointAt (vehiclePathPoints pc) dts t).x ∧
      (renderedPosition pc dts t).z = (curvePointAt (vehiclePathPoints pc) dts t).z :=
  ⟨rfl, curvePointAt_y_zero _ (vehiclePathPoints_y_zero pc) dts t, rfl, rfl⟩

/-- Claim C3: for every vehicle and every frame with a non-negative clock time
and non-negative delay, the computed progress lies in the half-open interval
`[0, 1)`. -/
theorem vehicleProgress_range (c d : ℚ) (hc : 0 ≤ c) (hd : 0 ≤ d) :
    0 ≤ vehicleProgress c d ∧ vehicleProgress c d < 1 := by
  have h8 : (0 : ℚ) < 8 := by norm_num
  have ht : 0 ≤ (c + d) / 8 := by positivity
  have hk1 : ((⌊(c + d) / 8⌋ : ℚ)) ≤ (c + d) / 8 := Int.floor_le _
  have hk2 : (c + d) / 8 < (⌊(c + d) / 8⌋ : ℚ) + 1 := Int.lt_floor_add_one _
  have h1 : (⌊(c + d) / 8⌋ : ℚ) * 8 ≤ c + d := (le_div_iff₀ h8).mp hk1
  have h2 : c + d < ((⌊(c + d) / 8⌋ : ℚ) + 1) * 8 := (div_lt_iff₀ h8).mp hk2
  unfold vehicleProgress jsMod
  rw [if_pos ht]
  constructor
  · apply div_nonneg _ h8.le
    linarith
  · apply (div_lt_one h8).mpr
    linarith

/-- Witness for `vehicleProgress_range` at clock 3, delay 1/2. -/
theorem vehicleProgress_range_witness :
    (0 : ℚ) ≤ 3 ∧ (0 : ℚ) ≤ 1 / 2 ∧
      (0 ≤ vehicleProgress 3 (1 / 2) ∧ vehicleProgress 3 (1 / 2) < 1) :=
  ⟨by norm_num, by norm_num, vehicleProgress_range 3 (1 / 2) (by norm_num) (by norm_num)⟩

/-- Counterexample to claim C2 at the concrete frame pair clock 7.5 then
clock 8.5 (delay 0): the wrap of the 8-second loop falls between these frames,
yet the newly computed progress is 1/16, not the 0 that a reset would produce,
and the progress strictly decreased even though per the claim it either
accumulates by `speed × elapsed` or resets to exactly 0 on arrival.  The code
keeps no per-vehicle progress state at all: progress is recomputed from the
shared clock each frame, and no node or neighbor structure exists. -/
theorem vehicleProgress_no_reset_counterexample :
    vehicleProgress (17 / 2) 0 < vehicleProgress (15 / 2) 0 ∧
      vehicleProgress (17 / 2) 0 = 1 / 16 ∧ (1 / 16 : ℚ) ≠ 0 := by
  have h1 : vehicleProgress (17 / 2) 0 = 1 / 16 := by
    unfold vehicleProgress jsMod
    rw [if_pos (by norm_num)]
    have hf : ⌊((17 : ℚ) / 2 + 0) / 8⌋ = 1 := by
      rw [Int.floor_eq_iff]
      norm_num
    rw [hf]
    norm_num
  have h2 : vehicleProgress (15 / 2) 0 = 15 / 16 := by
    unfold vehicleProgress jsMod
    rw [if_pos (by norm_num)]
    have hf : ⌊((15 : ℚ) / 2 + 0) / 8⌋ = 0 := by
      rw [Int.floor_eq_iff]
      norm_num
    rw [hf]
    norm_num
  refine ⟨?_, h1, by norm_num⟩
  rw [h1, h2]
  norm_num

/-- Claim C2 as amended: per-frame progress is not accumulated state; it is
recomputed each frame directly from the shared clock as
`((clock + delay) mod 8) / 8`, so it advances at the fixed rate 1/8 per second
within each 8-second period and is periodic with period 8 (wrapping past 0
rather than resetting to 0 at a frame); there is no per-vehicle speed, no
current/next node state and no random neighbor choice — each vehicle loops over
its one fixed path. -/
theorem vehicleProgress_mod_formula (c d : ℚ) (hc : 0 ≤ c) (hd : 0 ≤ d) :
    vehicleProgress c d = ((c + d) - 8 * (⌊(c + d) / 8⌋ : ℚ)) / 8 ∧
      vehicleProgress (c + 8) d = vehicleProgress c d := by
  have ht : 0 ≤ (c + d) / 8 := by positivity
  have ht8 : 0 ≤ (c + 8 + d) / 8 := by positivity
  constructor
  · unfold vehicleProgress jsMod
    rw [if_pos ht]
  · unfold vehicleProgress jsMod
    rw [if_pos ht8, if_pos ht]
    have heq : (c + 8 + d) / 8 = (c + d) / 8 + 1 := by ring
    rw [heq]
    have hfl : ⌊(c + d) / 8 + 1⌋ = ⌊(c + d) / 8⌋ + 1 := Int.floor_add_one _
    rw [hfl]
    push_cast
    ring_nf

/-- Witness for `vehicleProgress_mod_formula` at clock 1, delay 2. -/
theorem vehicleProgress_mod_formula_witness :
    (0 : ℚ) ≤ 1 ∧ (0 : ℚ) ≤ 2 ∧
      (vehicleProgress 1 2 = ((1 + 2) - 8 * (⌊((1 : ℚ) + 2) / 8⌋ : ℚ)) / 8 ∧
        vehicleProgress (1 + 8) 2 = vehicleProgress 1 2) :=
  ⟨by norm_num, by norm_num, vehicleProgress_mod_formula 1 2 (by norm_num) (by norm_num)⟩

/-- A fold of `max` never goes below its initial value. -/
theorem foldl_max_init_le (t : List ℚ) : ∀ a : ℚ, a ≤ t.foldl max a := by
  induction t with
  | nil => intro a; exact le_refl a
  | cons b t ih => intro a; exact le_trans (le_max_left a b) (ih (max a b))

/-- A fold of `max` dominates every list element. -/
theorem le_foldl_max (t : List ℚ) : ∀ a x : ℚ, x ∈ t → x ≤ t.foldl max a := by
  induction t with
  | nil => intro a x hx; cases hx
  | cons b t ih =>
    intro a x hx
    rcases List.mem_cons.mp hx with rfl | hx
    · exact le_trans (le_max_right a x) (foldl_max_init_le t _)
    · exact ih _ x hx

/-- `maxVal` dominates every element of the list. -/
theorem le_maxVal (vals : List ℚ) (v : ℚ) (hv : v ∈ vals) : v ≤ maxVal vals := by
  cases vals with
  | nil => cases hv
  | cons h t =>
    rcases List.mem_cons.mp hv with rfl | hv
    · exact foldl_max_init_le t v
    · exact le_foldl_max t h v hv

/-- Claim C10: in the benchmark chart, for every scenario table and every
displayed bar value, the rendered width percentage equals
`value / (1.05 × max of the seven values) × 100`, is strictly below 100, and is
strictly increasing in the underlying value. -/
theorem benchmark_bar_width (vals : List ℚ) (hvals : vals ∈ benchmarkTables)
    (v : ℚ) (hv : v ∈ vals) :
    barPercentage vals v = v / (maxVal vals * (105 / 100)) * 100 ∧
      barPercentage vals v < 100 ∧
      ∀ w ∈ vals, v < w → barPercentage vals v < barPercentage vals w := by
  have hpos : ∀ x ∈ vals, 0 < x := by
    simp only [benchmarkTables, List.mem_cons, List.not_mem_nil, or_false] at hvals
    rcases hvals with rfl | rfl | rfl | rfl | rfl | rfl <;>
      · intro x hx
        simp only [st_arnoult, provins, ingolstadt, st_arnoult2, provins2, ingolstadt2,
          List.mem_cons, List.not_mem_nil, or_false] at hx
        rcases hx with rfl | rfl | rfl | rfl | rfl | rfl | rfl <;> norm_num
  have hv0 : 0 < v := hpos v hv
  have hvM : v ≤ maxVal vals := le_maxVal vals v hv
  have hM : 0 < maxVal vals := lt_of_lt_of_le hv0 hvM
  have hD : 0 < maxVal vals * (105 / 100) := by positivity
  refine ⟨rfl, ?_, ?_⟩
  · have hlt : v < maxVal vals * (105 / 100) := by nlinarith
    have h1 : v / (maxVal vals * (105 / 100)) < 1 := (div_lt_one hD).mpr hlt
    calc barPercentage vals v = v / (maxVal vals * (105 / 100)) * 100 := rfl
      _ < 1 * 100 := mul_lt_mul_of_pos_right h1 (by norm_num)
      _ = 100 := by norm_num
  · intro w hw hvw
    unfold barPercentage
    have h1 : v / (maxVal vals * (105 / 100)) < w / (maxVal vals * (105 / 100)) :=
      (div_lt_div_iff_of_pos_right hD).mpr hvw
    exact mul_lt_mul_of_pos_right h1 (by norm_num)

/-- Witness for `benchmark_bar_width`: the QMIX bar (value 3.24) of the
St. Arnoult scenario. -/
theorem benchmark_bar_width_witness :
    st_arnoult ∈ benchmarkTables ∧ (324 / 100 : ℚ) ∈ st_arnoult ∧
      (barPercentage st_arnoult (324 / 100)
          = (324 / 100) / (maxVal st_arnoult * (105 / 100)) * 100 ∧
        barPercentage st_arnoult (324 / 100) < 100 ∧
        ∀ w ∈ st_arnoult, (324 / 100 : ℚ) < w →
          barPercentage st_arnoult (324 / 100) < barPercentage st_arnoult w) :=
  ⟨by unfold benchmarkTables; exact List.mem_cons_self _ _,
    by simp only [st_arnoult, List.mem_cons]; norm_num,
    benchmark_bar_width st_arnoult (by unfold benchmarkTables; exact List.mem_cons_self _ _)
      (324 / 100) (by simp only [st_arnoult, List.mem_cons]; norm_num)⟩

variable {α : Type} [LinearOrderedCommRing α]

/-- Squared distance is symmetric. -/
theorem distSq_comm (a b : P2 α) : distSq a b = distSq b a := by
  unfold distSq
  ring

/-- Node placement grows the accumulator by at most one node per candidate. -/
theorem foldl_placeStep_length (cands : List (P2 α)) :
    ∀ acc : List (P2 α), (List.foldl placeStep acc cands).length ≤ acc.length + cands.length := by
  induction cands with
  | nil => intro acc; simp
  | cons c t ih =>
    intro acc
    simp only [List.foldl_cons, List.length_cons]
    have h1 := ih (placeStep acc c)
    have h2 : (placeStep acc c).length ≤ acc.length + 1 := by
      unfold placeStep
      split
      · simp
      · exact Nat.le_succ _
    omega

/-- Node placement preserves pairwise squared separation of the accumulator. -/
theorem foldl_placeStep_pairwise (cands : List (P2 α)) :
    ∀ acc : List (P2 α), acc.Pairwise (fun p q => 16 < distSq p q) →
      (List.foldl placeStep acc cands).Pairwise (fun p q => 16 < distSq p q) := by
  induction cands with
  | nil => intro acc h; exact h
  | cons c t ih =>
    intro acc h
    simp only [List.foldl_cons]
    apply ih
    unfold placeStep
    split
    · rename_i hall
      rw [List.pairwise_append]
      refine ⟨h, by simp, ?_⟩
      intro p hp b hb
      rw [List.mem_singleton] at hb
      subst hb
      have hpc := List.all_eq_true.mp hall p hp
      rw [decide_eq_true_eq] at hpc
      rw [distSq_comm]
      exact hpc
    · exact h

/-- The nodes accepted by the generator are pairwise farther apart than the
minimum separation (squared: 16). -/
theorem placeNodes_pairwise (cands : List (P2 α)) :
    (placeNodes cands).Pairwise (fun p q => 16 < distSq p q) :=
  foldl_placeStep_pairwise cands [] List.Pairwise.nil

/-- Everything in an insertion-sort insertion came from the inserted element
or the old list. -/
theorem mem_insertKey (y : α × ℕ) : ∀ (l : List (α × ℕ)) (x : α × ℕ),
    x ∈ insertKey y l → x = y ∨ x ∈ l := by
  intro l
  induction l with
  | nil =>
    intro x hx
    simp only [insertKey] at hx
    exact Or.inl (List.mem_singleton.mp hx)
  | cons z t ih =>
    intro x hx
    simp only [insertKey] at hx
    split at hx
    · rcases List.mem_cons.mp hx with rfl | hx
      · exact Or.inl rfl
      · exact Or.inr hx
    · rcases List.mem_cons.mp hx with rfl | hx
      · exact Or.inr (List.mem_cons_self _ _)
      · rcases ih x hx with h | h
        · exact Or.inl h
        · exact Or.inr (List.mem_cons_of_mem _ h)

/-- The insertion sort permutes: membership is preserved downward. -/
theorem mem_isort : ∀ (l : List (α × ℕ)) (x : α × ℕ), x ∈ isort l → x ∈ l := by
  intro l
  induction l with
  | nil => intro x hx; exact hx
  | cons y t ih =>
    intro x hx
    simp only [isort] at hx
    rcases mem_insertKey y (isort t) x hx with rfl | hx
    · exact List.mem_cons_self _ _
    · exact List.mem_cons_of_mem _ (ih x hx)

/-- Every candidate neighbor of node `i` is a different node within the
squared connection threshold. -/
theorem neighborCands_spec (nodes : List (P2 α)) (i : ℕ) :
    ∀ j ∈ neighborCands nodes i,
      distSq (nodes.getD i pzero) (nodes.getD j pzero) < 196 ∧ j ≠ i := by
  intro j hj
  unfold neighborCands at hj
  rw [List.mem_filter] at hj
  obtain ⟨hjtake, hjlt⟩ := hj
  rw [decide_eq_true_eq] at hjlt
  refine ⟨hjlt, ?_⟩
  have hjmap := List.mem_of_mem_take hjtake
  rw [List.mem_map] at hjmap
  obtain ⟨q, hq, rfl⟩ := hjmap
  have hq2 := mem_isort _ q hq
  rw [List.mem_map] at hq2
  obtain ⟨j0, hj0, hq0⟩ := hq2
  have hsnd : q.2 = j0 := by rw [← hq0]
  rw [hsnd]
  have hj0f := (List.mem_filter.mp hj0).2
  exact of_decide_eq_true hj0f

/-- Each node attempts at most K = 3 connections. -/
theorem neighborCands_length_le (nodes : List (P2 α)) (i : ℕ) :
    (neighborCands nodes i).length ≤ 3 := by
  unfold neighborCands
  refine le_trans (List.length_filter_le _ _) ?_
  refine le_trans (List.length_take_le _ _) ?_
  exact le_refl 3

/-- `modifyAt` preserves the table length. -/
theorem modifyAt_length : ∀ (l : List (List ℕ)) (i : ℕ) (f : List ℕ → List ℕ),
    (modifyAt l i f).length = l.length := by
  intro l
  induction l with
  | nil => intro i f; rfl
  | cons a t ih =>
    intro i f
    cases i with
    | zero => rfl
    | succ n => simp only [modifyAt, List.length_cons, ih]

/-- Reading the modified entry of a `modifyAt` table. -/
theorem getD_modifyAt_self : ∀ (l : List (List ℕ)) (i : ℕ) (f : List ℕ → List ℕ),
    (modifyAt l i f).getD i [] = if i < l.length then f (l.getD i []) else [] := by
  intro l
  induction l with
  | nil =>
    intro i f
    simp [modifyAt]
  | cons a t ih =>
    intro i f
    cases i with
    | zero => simp [modifyAt]
    | succ n =>
      simp only [modifyAt, List.getD_cons_succ, List.length_cons, ih, Nat.succ_lt_succ_iff]

/-- Reading an unmodified entry of a `modifyAt` table. -/
theorem getD_modifyAt_ne : ∀ (l : List (List ℕ)) (i k : ℕ) (f : List ℕ → List ℕ), k ≠ i →
    (modifyAt l i f).getD k [] = l.getD k [] := by
  intro l
  induction l with
  | nil => intro i k f _; rfl
  | cons a t ih =>
    intro i k f hk
    cases i with
    | zero =>
      cases k with
      | zero => exact absurd rfl hk
      | succ m => simp [modifyAt, List.getD_cons_succ]
    | succ n =>
      cases k with
      | zero => simp [modifyAt]
      | succ m =>
        simp only [modifyAt, List.getD_cons_succ]
        exact ih n m f (fun h => hk (by rw [h]))

/-- Membership in the table after `addEdge`: the entry was already there, or
it is one of the two ends of the freshly recorded edge. -/
theorem mem_addEdge (adj : List (List ℕ)) (i j k x : ℕ) (hij : i ≠ j)
    (hx : x ∈ (addEdge adj i j).getD k []) :
    x ∈ adj.getD k [] ∨ (k = i ∧ x = j) ∨ (k = j ∧ x = i) := by
  unfold addEdge at hx
  by_cases hkj : k = j
  · subst hkj
    rw [getD_modifyAt_self] at hx
    split at hx
    · rcases List.mem_append.mp hx with hx | hx
      · rw [getD_modifyAt_ne adj i k _ (fun h => hij (by rw [h]))] at hx
        exact Or.inl hx
      · rw [List.mem_singleton] at hx
        subst hx
        exact Or.inr (Or.inr ⟨rfl, rfl⟩)
    · cases hx
  · rw [getD_modifyAt_ne _ j k _ hkj] at hx
    by_cases hki : k = i
    · subst hki
      rw [getD_modifyAt_self] at hx
      split at hx
      · rcases List.mem_append.mp hx with hx | hx
        · exact Or.inl hx
        · rw [List.mem_singleton] at hx
          subst hx
          exact Or.inr (Or.inl ⟨rfl, rfl⟩)
      · cases hx
    · rw [getD_modifyAt_ne _ i k _ hki] at hx
      exact Or.inl hx

/-- The inner edge-adding fold keeps every recorded adjacency within the
connection threshold, provided every processed candidate is. -/
theorem edgeOk_innerFoldl (nodes : List (P2 α)) (i : ℕ) :
    ∀ (cs : List ℕ) (adj : List (List ℕ)),
      (∀ j ∈ cs, distSq (nodes.getD i pzero) (nodes.getD j pzero) < 196 ∧ j ≠ i) →
      EdgeOk nodes adj →
      EdgeOk nodes (cs.foldl
        (fun adj j => if j ∈ adj.getD i [] then adj else addEdge adj i j) adj) := by
  intro cs
  induction cs with
  | nil => intro adj _ h; exact h
  | cons c t ih =>
    intro adj hcs h
    simp only [List.foldl_cons]
    apply ih
    · intro j hj
      exact hcs j (List.mem_cons_of_mem _ hj)
    · obtain ⟨hdist, hne⟩ := hcs c (List.mem_cons_self _ _)
      split
      · exact h
      · intro k x hx
        rcases mem_addEdge adj i c k x (Ne.symm hne) hx with hold | ⟨hk, hx2⟩ | ⟨hk, hx2⟩
        · exact h k x hold
        · subst hk; subst hx2; exact hdist
        · subst hk; subst hx2; rw [distSq_comm]; exact hdist

/-- The outer fold over all node indices preserves the threshold invariant. -/
theorem edgeOk_outerFoldl (nodes : List (P2 α)) :
    ∀ (idxs : List ℕ) (adj : List (List ℕ)), EdgeOk nodes adj →
      EdgeOk nodes (idxs.foldl
        (fun adj i => (neighborCands nodes i).foldl
          (fun adj j => if j ∈ adj.getD i [] then adj else addEdge adj i j) adj) adj) := by
  intro idxs
  induction idxs with
  | nil => intro adj h; exact h
  | cons i t ih =>
    intro adj h
    simp only [List.foldl_cons]
    apply ih
    exact edgeOk_innerFoldl nodes i (neighborCands nodes i) adj (neighborCands_spec nodes i) h

/-- Every edge recorded by the generator connects nodes within the squared
connection threshold 14² = 196. -/
theorem buildAdj_edgeOk (nodes : List (P2 α)) : EdgeOk nodes (buildAdj nodes) := by
  unfold buildAdj
  apply edgeOk_outerFoldl
  intro i j hj
  rcases getD_mem_or (List.replicate nodes.length []) i [] with h | h
  · rw [List.eq_of_mem_replicate h] at hj
    cases hj
  · rw [h] at hj
    cases hj

set_option maxRecDepth 100000 in
/-- Counterexample to claim C1: on the candidate stream `cand80` (requested
node count 80, positions inside range 25) the generator accepts 5 nodes, and
the central node ends up connected to 4 neighbors — more than 3.  Each of the
four outer nodes ranks the central node among its nearest three; the central
node itself only initiates edges to three of them, and the fourth outer node
then adds the extra edge.  The claim's "every node is connected to at most 3
neighbors" therefore fails; only the number of connections a node initiates is
bounded by 3. -/
theorem graphGenerator_degree_counterexample :
    (placeNodes cand80).length = 5 ∧
      3 < ((buildAdj (placeNodes cand80)).getD 0 []).length := by
  decide

/-- Claim C1 as amended: for any candidate stream of the requested length 80,
the generator yields at most 80 nodes, every pair of distinct nodes is at
least 4 units apart (squared distances at least 16 — in fact strictly more),
every node initiates at most 3 connections, and every recorded adjacency joins
nodes within 14 units (squared distance below 196); the total neighbor count
of a node may however exceed 3, as nodes also receive edges initiated by
others (see the counterexample). -/
theorem graphGenerator_scenario (cands : List (P2 ℚ)) (h80 : cands.length = 80) :
    (placeNodes cands).length ≤ 80 ∧
      (placeNodes cands).Pairwise (fun p q => 16 ≤ distSq p q) ∧
      (∀ i : ℕ, (neighborCands (placeNodes cands) i).length ≤ 3) ∧
      (∀ i j : ℕ, j ∈ (buildAdj (placeNodes cands)).getD i [] →
        distSq ((placeNodes cands).getD i pzero) ((placeNodes cands).getD j pzero) < 196) := by
  refine ⟨?_, ?_, ?_, ?_⟩
  · have h := foldl_placeStep_length cands ([] : List (P2 ℚ))
    simpa [placeNodes, h80] using h
  · exact (placeNodes_pairwise cands).imp le_of_lt
  · intro i
    exact neighborCands_length_le (placeNodes cands) i
  · exact buildAdj_edgeOk (placeNodes cands)

/-- Witness for `graphGenerator_scenario` on a stream of 80 identical
candidates (of which the generator accepts exactly the first). -/
theorem graphGenerator_scenario_witness :
    (List.replicate 80 (pzero : P2 ℚ)).length = 80 ∧
      ((placeNodes (List.replicate 80 (pzero : P2 ℚ))).length ≤ 80 ∧
        (placeNodes (List.replicate 80 (pzero : P2 ℚ))).Pairwise
          (fun p q => 16 ≤ distSq p q) ∧
        (∀ i : ℕ,
          (neighborCands (placeNodes (List.replicate 80 (pzero : P2 ℚ))) i).length ≤ 3) ∧
        (∀ i j : ℕ,
          j ∈ (buildAdj (placeNodes (List.replicate 80 (pzero : P2 ℚ)))).getD i [] →
            distSq ((placeNodes (List.replicate 80 (pzero : P2 ℚ))).getD i pzero)
                ((placeNodes (List.replicate 80 (pzero : P2 ℚ))).getD j pzero) < 196)) :=
  ⟨by simp, graphGenerator_scenario (List.replicate 80 pzero) (by simp)⟩

/-- Claim C6: one frame of the beam effect never raises the number of active
beams above the configured maximum, and every beam present after the frame was
either already active or was freshly created for a target that satisfied the
eligibility predicate (eligible category, not already beamed) at the moment of
creation. -/
theorem beamStep_invariants (maxBeams : ℕ) (now dur : ℚ) (cats : ℕ → Bool)
    (draws : List ℕ) (beams : List (ℕ × ℚ)) (h : beams.length ≤ maxBeams) :
    (beamStep maxBeams now dur cats draws beams).length ≤ maxBeams ∧
      ∀ b ∈ beamStep maxBeams now dur cats draws beams,
        b ∈ beamPurge now beams ∨
          (beamEligible cats (beamPurge now beams) b.1 = true ∧ b.2 = now + dur) := by
  have hp : (beamPurge now beams).length ≤ beams.length := List.length_filter_le _ _
  unfold beamStep beamTryAdd
  split
  · rename_i hlt
    cases hfind : draws.find? (beamEligible cats (beamPurge now beams)) with
    | none => exact ⟨le_trans hp h, fun b hb => Or.inl hb⟩
    | some a =>
      constructor
      · rw [List.length_append]
        simpa using hlt
      · intro b hb
        rcases List.mem_append.mp hb with hb | hb
        · exact Or.inl hb
        · rw [List.mem_singleton] at hb
          subst hb
          exact Or.inr ⟨List.find?_some hfind, rfl⟩
  · exact ⟨le_trans hp h, fun b hb => Or.inl hb⟩

/-- Witness for `beamStep_invariants`: maximum 3 concurrent beams, empty
registry, one draw of an eligible agent at time 1 with duration 1/2. -/
theorem beamStep_invariants_witness :
    ([] : List (ℕ × ℚ)).length ≤ 3 ∧
      ((beamStep 3 1 (1 / 2) (fun _ => true) [0] []).length ≤ 3 ∧
        ∀ b ∈ beamStep 3 1 (1 / 2) (fun _ => true) [0] [],
          b ∈ beamPurge 1 [] ∨
            (beamEligible (fun _ => true) (beamPurge 1 []) b.1 = true ∧ b.2 = 1 + 1 / 2)) :=
  ⟨by simp, beamStep_invariants 3 1 (1 / 2) (fun _ => true) [0] [] (by simp)⟩

end UrbWeb
